import Mathlib

/-!
Verification of the ResolveBitvectors compiler pass
(borealis/src/passes/resolve_bitvectors.rs).

The pass walks every function of a boom AST, tracks the bit-width of
local variables in an environment (the `locals` map), and rewrites the
five builtin bitvector operations (Zeros, Ones, bitvector_concat,
eq_vec, undefined_bitvector) into plain integer arithmetic.

The pass itself is embedded directly from the Rust source.  The boom IR
data types (Size, Type, Literal, Value, Expression, Statement, the
function/AST structure, get_assignment and bits_to_int) live in the boom
module, which is not part of the source under verification; those are
modelled from the specification (spec.md sections 3, 4.3 and 6).

Rust panics (assert failures, failed unwraps, explicit panic calls) are
modelled by returning none: a none result means the pass aborts fatally.
Mutation of statements and of shared Type nodes is modelled by explicit
state passing: processing a statement returns the updated pass state and
the (possibly rewritten) statement.
-/

/-- Identifier names (InternedString in the source). -/
abbrev Ident := String

/-- Modelled from the spec: boom Size (crate::boom::Size, not under src/).
A variable's bit-width state: Unknown (no information), Static (width
known at compile time), or Runtime (width given by the runtime value of
the named variable). -/
inductive Size where
  | Unknown : Size
  | Static (width : Nat) : Size
  | Runtime (ident : Ident) : Size
deriving DecidableEq, Repr

/-- Modelled from the spec: boom Type (crate::boom::Type, not under src/).
Only the integer/bitvector-carrying variant owns a Size; every other
variant of the IR type system is collapsed into Other (the pass never
inspects them). -/
inductive Typ where
  | Int (size : Size) : Typ
  | Other : Typ
deriving DecidableEq, Repr

/-- Modelled from the spec: boom Literal (not under src/): an
arbitrary-precision integer, or a bit-sequence with a known length
(a bit is modelled as Bool). -/
inductive Literal where
  | Int (value : Int) : Literal
  | Bits (bits : List Bool) : Literal
deriving DecidableEq, Repr

/-- The operation kinds built by the handlers (crate::boom::Operation
constructors Or, LeftShift, Equal; all binary). -/
inductive OpKind where
  | Or : OpKind
  | LeftShift : OpKind
  | Equal : OpKind
deriving DecidableEq, Repr

/-- Modelled from the spec: boom Value (not under src/): an identifier
reference, a literal, or a composite binary operation node. -/
inductive Value where
  | Identifier (name : Ident) : Value
  | Literal (lit : Literal) : Value
  | Operation (op : OpKind) (left right : Value) : Value
deriving DecidableEq, Repr

/-- Modelled from the spec: boom Expression (not under src/): the pass
only distinguishes plain identifier destinations; every other expression
shape is collapsed into Other. -/
inductive Expression where
  | Identifier (name : Ident) : Expression
  | Other : Expression
deriving DecidableEq, Repr

/-- Modelled from the spec: boom Statement (not under src/).  The three
variants the pass dispatches on, plus Other for every remaining
statement shape (handled by the catch-all arm of visit_statement). -/
inductive Statement where
  | TypeDeclaration (name : Ident) (typ : Typ) : Statement
  | Copy (expression : Expression) (value : Value) : Statement
  | FunctionCall (expression : Option Expression) (name : Ident)
      (arguments : List Value) : Statement
  | Other : Statement
deriving DecidableEq, Repr

/-- Modelled from the spec: a boom function definition (not under src/):
a parameter signature (name and shared type node), the entry block's
statements, and the statements of all subsequent control-flow blocks in
walk order. -/
structure FunctionDefinition where
  parameters : List (Ident × Typ)
  entry_block : List Statement
  rest_stmts : List Statement
deriving DecidableEq, Repr

/-- Modelled from the spec: the whole-program AST, a collection of
function definitions (iteration order of the underlying map is modelled
as the list order). -/
structure Ast where
  functions : List FunctionDefinition
deriving DecidableEq, Repr

/-- Modelled from the spec (section 4.3): the entry block's
get_assignment query (crate::boom, not under src/): the value most
recently copied into the identifier within the block, i.e. the value of
the last Copy statement whose destination is that identifier. -/
def get_assignment (block : List Statement) (ident : Ident) : Option Value :=
  block.foldl
    (fun acc stmt =>
      match stmt with
      | .Copy (.Identifier name) value => if name = ident then some value else acc
      | _ => acc)
    none

/-- Modelled from the spec (section 4.2): bits_to_int (crate::boom, not
under src/): the unsigned integer encoded by a bit sequence read
big-endian (first bit most significant). -/
def bits_to_int (bits : List Bool) : Int :=
  bits.foldl (fun acc b => 2 * acc + (if b then 1 else 0)) 0

/-- Conversion of an arbitrary-precision integer to a 64-bit unsigned
machine integer, as performed by the unwrapped try_into / try_from calls
in the source; fails (panics at the unwrap) when negative or too large. -/
def usize_try_from (i : Int) : Option Nat :=
  if 0 ≤ i ∧ i < 2 ^ 64 then some i.toNat else none

/-- The pass state (struct ResolveBitvectors): the change flag and the
map from local variable names to their type nodes.  The HashMap is
modelled as an association list where insertion conses and lookup takes
the first match.  current_func is passed explicitly to the functions
that read it (it is set once per function and never changes during the
walk). -/
structure ResolveBitvectors where
  did_change : Bool
  locals : List (Ident × Typ)
deriving DecidableEq, Repr

/-- First-match lookup in the locals association list (HashMap::get). -/
def lookupLocal : List (Ident × Typ) → Ident → Option Typ
  | [], _ => none
  | (n, t) :: rest, name => if n = name then some t else lookupLocal rest name

/-- In-place update of the current binding of a name (the write through
the shared RefCell type node held by the map). -/
def updateLocal : List (Ident × Typ) → Ident → Typ → List (Ident × Typ)
  | [], _, _ => []
  | (n, t) :: rest, name, typ =>
    if n = name then (n, typ) :: rest else (n, t) :: updateLocal rest name typ

/-- Type::get_size: the size carried by the integer/bitvector variant,
none for every other variant. -/
def Typ.get_size : Typ → Option Size
  | .Int s => some s
  | .Other => none

/-- ResolveBitvectors::get_size: the size of a local variable, none if
not a local variable or not an int. -/
def ResolveBitvectors.get_size (st : ResolveBitvectors) (name : Ident) : Option Size :=
  match lookupLocal st.locals name with
  | some t => t.get_size
  | none => none

/-- ResolveBitvectors::set_size: writes the size through the tracked
type node.  The source unwraps both the map lookup and get_size_mut, so
an untracked name or a non-int type is a fatal abort (none). -/
def ResolveBitvectors.set_size (st : ResolveBitvectors) (name : Ident) (size : Size) :
    Option ResolveBitvectors :=
  match lookupLocal st.locals name with
  | some (.Int _) => some { st with locals := updateLocal st.locals name (.Int size) }
  | some .Other => none
  | none => none

/-- ResolveBitvectors::add_type_declaration: bind the name to the type
node (HashMap::insert overwrites; modelled by cons with first-match
lookup). -/
def ResolveBitvectors.add_type_declaration (st : ResolveBitvectors) (name : Ident)
    (typ : Typ) : ResolveBitvectors :=
  { st with locals := (name, typ) :: st.locals }

/-- ResolveBitvectors::resolve_from_copy: use the value assigned by a
copy to resolve the destination's length.  Returns the updated state and
the (possibly mutated in place) value; none models the set_size panic in
the bit-literal branch. -/
def ResolveBitvectors.resolve_from_copy (st : ResolveBitvectors) (expression : Expression)
    (value : Value) : Option (ResolveBitvectors × Value) :=
  match expression with
  | .Identifier dest =>
    match value with
    | .Identifier source =>
      match st.get_size dest, st.get_size source with
      | some (.Static _), some _ => some (st, value)
      | some .Unknown, some source_size =>
        match st.set_size dest source_size with
        | some st' => some (st', value)
        | none => none
      | some (.Runtime _), some (.Static size) =>
        match st.set_size dest (.Static size) with
        | some st' => some (st', value)
        | none => none
      | _, _ => some (st, value)
    | .Literal (.Bits bits) =>
      match st.set_size dest (.Static bits.length) with
      | some st' => some (st', .Literal (.Int (bits_to_int bits)))
      | none => none
    | _ => some (st, value)
  | _ => some (st, value)

/-- The size-resolving part of zeros_handler: the if-let chain that sets
the destination size to Static(length) when the argument identifier is
bound to an integer literal in the entry block.  Non-matching shapes
fall through without effect; the unwrapped usize conversion and the
set_size unwrap are fatal (none). -/
def zeros_resolve (st : ResolveBitvectors) (entry : List Statement)
    (expression : Expression) (ident : Ident) : Option ResolveBitvectors :=
  match get_assignment entry ident with
  | some (.Literal (.Int length)) =>
    match expression with
    | .Identifier destination =>
      match usize_try_from length with
      | some l => st.set_size destination (.Static l)
      | none => none
    | _ => some st
  | _ => some st

/-- zeros_handler: resolve the destination length if possible, then
rewrite the statement to a copy of integer literal 0 regardless.  The
argument must be a single identifier (arity assert and identifier
pattern are fatal otherwise). -/
def zeros_handler (st : ResolveBitvectors) (entry : List Statement) (stmt : Statement)
    (expression : Expression) (arguments : List Value) :
    Option (ResolveBitvectors × Statement) :=
  match arguments with
  | [.Identifier ident] =>
    match zeros_resolve st entry expression ident with
    | some st' => some (st', .Copy expression (.Literal (.Int 0)))
    | none => none
  | _ => none

/-- ones_handler: if the argument identifier has no entry-block
assignment, return silently with nothing changed; otherwise the bound
value must be an integer literal and the destination an identifier (else
fatal).  Sets the destination size to Static(length) and rewrites the
statement to a copy of (1 shifted left by length) minus 1.  The u64
conversion and the u128 shift bound are the source's unwrapped
conversions (fatal on failure). -/
def ones_handler (st : ResolveBitvectors) (entry : List Statement) (stmt : Statement)
    (expression : Expression) (arguments : List Value) :
    Option (ResolveBitvectors × Statement) :=
  match arguments with
  | [.Identifier ident] =>
    match get_assignment entry ident with
    | none => some (st, stmt)
    | some (.Literal (.Int length)) =>
      match expression with
      | .Identifier destination =>
        match usize_try_from length with
        | some l =>
          match st.set_size destination (.Static l) with
          | some st' =>
            if l < 128 then
              some (st', .Copy expression (.Literal (.Int (2 ^ l - 1))))
            else none
          | none => none
        | none => none
      | _ => none
    | some _ => none
  | _ => none

/-- concat_handler: both operands must be identifiers with Static sizes
(else fatal), and the destination an identifier tracked by the
environment (set_size unwrap).  Rewrites to a copy of
(left shifted left by right_length) or-ed with right and sets the
destination size to Static(left_length + right_length). -/
def concat_handler (st : ResolveBitvectors) (entry : List Statement) (stmt : Statement)
    (expression : Expression) (arguments : List Value) :
    Option (ResolveBitvectors × Statement) :=
  match arguments with
  | [.Identifier left_ident, .Identifier right_ident] =>
    match st.get_size left_ident with
    | some (.Static left_length) =>
      match st.get_size right_ident with
      | some (.Static right_length) =>
        match expression with
        | .Identifier dest =>
          match st.set_size dest (.Static (left_length + right_length)) with
          | some st' =>
            some (st',
              .Copy expression
                (.Operation .Or
                  (.Operation .LeftShift (.Identifier left_ident)
                    (.Literal (.Int (right_length : Int))))
                  (.Identifier right_ident)))
          | none => none
        | _ => none
      | _ => none
    | _ => none
  | _ => none

/-- eq_handler: ignores the pass state entirely (the source takes the
state as an unused underscore argument); rewrites to a copy of an
equality operation between the two identifier arguments.  Non-identifier
arguments or a non-identifier destination are fatal. -/
def eq_handler (st : ResolveBitvectors) (entry : List Statement) (stmt : Statement)
    (expression : Expression) (arguments : List Value) :
    Option (ResolveBitvectors × Statement) :=
  match arguments with
  | [.Identifier left_ident, .Identifier right_ident] =>
    match expression with
    | .Identifier _ =>
      some (st,
        .Copy expression
          (.Operation .Equal (.Identifier left_ident) (.Identifier right_ident)))
    | _ => none
  | _ => none

/-- undefined_handler: the destination must be an identifier whose
get_size is some (else the unwrap aborts).  If its size is Unknown it is
upgraded to Runtime of the argument identifier (which must then be an
identifier); in every non-fatal case the statement is rewritten to a
copy of integer literal 0. -/
def undefined_handler (st : ResolveBitvectors) (entry : List Statement) (stmt : Statement)
    (expression : Expression) (arguments : List Value) :
    Option (ResolveBitvectors × Statement) :=
  match arguments with
  | [arg] =>
    match expression with
    | .Identifier dest =>
      match st.get_size dest with
      | none => none
      | some .Unknown =>
        match arg with
        | .Identifier size_ident =>
          match st.set_size dest (.Runtime size_ident) with
          | some st' => some (st', .Copy expression (.Literal (.Int 0)))
          | none => none
        | _ => none
      | some _ => some (st, .Copy expression (.Literal (.Int 0)))
    | _ => none
  | _ => none

/-- ResolveBitvectors::resolve_fn: dispatch a function call with a
result destination to the handler of its builtin name; calls to any
other name are left untouched. -/
def ResolveBitvectors.resolve_fn (st : ResolveBitvectors) (entry : List Statement)
    (stmt : Statement) (expression : Expression) (name : Ident)
    (arguments : List Value) : Option (ResolveBitvectors × Statement) :=
  if name = "Zeros" then zeros_handler st entry stmt expression arguments
  else if name = "Ones" then ones_handler st entry stmt expression arguments
  else if name = "bitvector_concat" then concat_handler st entry stmt expression arguments
  else if name = "eq_vec" then eq_handler st entry stmt expression arguments
  else if name = "undefined_bitvector" then
    undefined_handler st entry stmt expression arguments
  else some (st, stmt)

/-- Visitor::visit_statement: dispatch on the statement shape.  entry is
the current contents of the enclosing function's entry block (reachable
in the source through current_func). -/
def visit_statement (st : ResolveBitvectors) (entry : List Statement) (stmt : Statement) :
    Option (ResolveBitvectors × Statement) :=
  match stmt with
  | .TypeDeclaration name typ => some (st.add_type_declaration name typ, stmt)
  | .Copy expression value =>
    match st.resolve_from_copy expression value with
    | some (st', value') => some (st', .Copy expression value')
    | none => none
  | .FunctionCall (some expression) name arguments =>
    st.resolve_fn entry stmt expression name arguments
  | _ => some (st, stmt)

/-- Walk of the entry block: statements are visited in order and mutated
in place, so the get_assignment context of each statement is the already
rewritten prefix together with the statement itself and the still
unvisited suffix. -/
def processEntry (st : ResolveBitvectors) (prev : List Statement) :
    List Statement → Option (ResolveBitvectors × List Statement)
  | [] => some (st, prev)
  | stmt :: rest =>
    match visit_statement st (prev ++ stmt :: rest) stmt with
    | some (st', stmt') => processEntry st' (prev ++ [stmt']) rest
    | none => none

/-- Walk of the statements of the blocks after the entry block; the
entry block is fully rewritten by then and no longer changes. -/
def processRest (st : ResolveBitvectors) (entry : List Statement) :
    List Statement → Option (ResolveBitvectors × List Statement)
  | [] => some (st, [])
  | stmt :: rest =>
    match visit_statement st entry stmt with
    | some (st', stmt') =>
      match processRest st' entry rest with
      | some (st'', rest') => some (st'', stmt' :: rest')
      | none => none
    | none => none

/-- The per-function seeded environment: run filters the signature
parameters to the int-typed ones and extends the cleared map with them. -/
def seedLocals (params : List (Ident × Typ)) : List (Ident × Typ) :=
  params.foldl
    (fun acc p => match p.2 with
      | .Int _ => (p.1, p.2) :: acc
      | .Other => acc)
    []

/-- One iteration of the closure inside run: reset the per-function
state, seed the parameters, walk the function, and report its did_change
flag together with the mutated function. -/
def processFunction (f : FunctionDefinition) : Option (Bool × FunctionDefinition) :=
  let st : ResolveBitvectors := { did_change := false, locals := seedLocals f.parameters }
  match processEntry st [] f.entry_block with
  | some (st1, entry') =>
    match processRest st1 entry' f.rest_stmts with
    | some (st2, rest') =>
      some (st2.did_change, { f with entry_block := entry', rest_stmts := rest' })
    | none => none
  | none => none

/-- Helper for run: process every function in order and or together the
per-function flags (the AnyExt::any combinator of the pass framework is
not under src/ and is modelled from the spec: run processes every
function and reports whether any rewrite occurred). -/
def runFunctions : List FunctionDefinition → Option (Bool × List FunctionDefinition)
  | [] => some (false, [])
  | f :: rest =>
    match processFunction f with
    | some (b, f') =>
      match runFunctions rest with
      | some (brest, rest') => some (b || brest, f' :: rest')
      | none => none
    | none => none

/-- Pass::run for ResolveBitvectors: process every function of the AST
and return the or of the per-function did_change flags together with the
mutated AST. -/
def run (ast : Ast) : Option (Bool × Ast) :=
  match runFunctions ast.functions with
  | some (b, fs) => some (b, ⟨fs⟩)
  | none => none

/-- The lattice rank of a size: Unknown below Runtime below Static.  The
monotonicity property of the pass is stated with this rank. -/
def Size.rank : Size → Nat
  | .Unknown => 0
  | .Runtime _ => 1
  | .Static _ => 2

/-- Updating one name leaves the lookup of every other name unchanged. -/
theorem lookupLocal_updateLocal_ne (l : List (Ident × Typ)) (name : Ident) (typ : Typ)
    (n : Ident) (h : n ≠ name) :
    lookupLocal (updateLocal l name typ) n = lookupLocal l n := by
  induction l with
  | nil => rfl
  | cons p rest ih =>
    obtain ⟨k, t⟩ := p
    by_cases hk : k = name
    · subst hk
      simp [updateLocal, lookupLocal, Ne.symm h]
    · simp only [updateLocal, if_neg hk, lookupLocal]
      by_cases hkn : k = n
      · simp [hkn]
      · simp [hkn, ih]

/-- Updating a tracked name makes its lookup return the new type. -/
theorem lookupLocal_updateLocal_self (l : List (Ident × Typ)) (name : Ident) (typ t : Typ)
    (h : lookupLocal l name = some t) :
    lookupLocal (updateLocal l name typ) name = some typ := by
  induction l with
  | nil => simp [lookupLocal] at h
  | cons p rest ih =>
    obtain ⟨k, t₀⟩ := p
    by_cases hk : k = name
    · simp [updateLocal, lookupLocal, hk]
    · simp only [lookupLocal, if_neg hk] at h
      simp only [updateLocal, if_neg hk, lookupLocal, if_neg hk]
      exact ih h

/-- get_size succeeds exactly on names tracked with an int type. -/
theorem get_size_eq_some_iff (st : ResolveBitvectors) (name : Ident) (s : Size) :
    st.get_size name = some s ↔ lookupLocal st.locals name = some (.Int s) := by
  unfold ResolveBitvectors.get_size
  cases hl : lookupLocal st.locals name with
  | none => simp
  | some t => cases t <;> simp [Typ.get_size]

/-- set_size on a name tracked with an int type performs the in-place
update of that binding. -/
theorem set_size_eq (st : ResolveBitvectors) (name : Ident) (size : Size) (s₀ : Size)
    (h : lookupLocal st.locals name = some (.Int s₀)) :
    st.set_size name size =
      some { st with locals := updateLocal st.locals name (.Int size) } := by
  unfold ResolveBitvectors.set_size
  rw [h]

/-- After the update performed by set_size, the name's size is the one
written. -/
theorem get_size_after_update_self (st : ResolveBitvectors) (name : Ident) (size : Size)
    (s₀ : Size) (h : lookupLocal st.locals name = some (.Int s₀)) :
    ResolveBitvectors.get_size
        { st with locals := updateLocal st.locals name (.Int size) } name = some size := by
  unfold ResolveBitvectors.get_size
  rw [lookupLocal_updateLocal_self st.locals name (.Int size) (.Int s₀) h]
  rfl

/-- After the update performed by set_size, every other name keeps its
size. -/
theorem get_size_after_update_ne (st : ResolveBitvectors) (name : Ident) (typ : Typ)
    (n : Ident) (h : n ≠ name) :
    ResolveBitvectors.get_size { st with locals := updateLocal st.locals name typ } n =
      st.get_size n := by
  unfold ResolveBitvectors.get_size
  rw [lookupLocal_updateLocal_ne st.locals name typ n h]

/-- Inversion for a successful set_size: the name was tracked with an
int type and the result is the in-place update. -/
theorem set_size_some_inv (st st' : ResolveBitvectors) (name : Ident) (size : Size)
    (h : st.set_size name size = some st') :
    ∃ s₀, lookupLocal st.locals name = some (.Int s₀) ∧
      st' = { st with locals := updateLocal st.locals name (.Int size) } := by
  unfold ResolveBitvectors.set_size at h
  cases hl : lookupLocal st.locals name with
  | none => rw [hl] at h; cases h
  | some t =>
    cases t with
    | Int s₀ =>
      rw [hl] at h
      exact ⟨s₀, rfl, (Option.some_injective _ h).symm⟩
    | Other => rw [hl] at h; cases h

/-- C10: a function-call statement with no result destination is never
dispatched to any builtin handler: whatever the callee name (including
the five recognized builtins), the statement is left unchanged and the
environment is not touched. -/
theorem c10_no_destination_untouched (st : ResolveBitvectors) (entry : List Statement)
    (name : Ident) (arguments : List Value) :
    visit_statement st entry (.FunctionCall none name arguments) =
      some (st, .FunctionCall none name arguments) := rfl

/-- C8: an eq_vec call with identifier arguments and an identifier
destination is unconditionally rewritten to a copy of an equality
comparison of the two identifiers; the pass state is returned exactly as
given (no size is read or written), for every state. -/
theorem c8_eq_vec_unconditional (st : ResolveBitvectors) (entry : List Statement)
    (stmt : Statement) (dest l r : Ident) :
    eq_handler st entry stmt (.Identifier dest) [.Identifier l, .Identifier r] =
      some (st, .Copy (.Identifier dest)
        (.Operation .Equal (.Identifier l) (.Identifier r))) := rfl

/-- C5: a copy of a bit-sequence literal of length L into a tracked
identifier destination sets the destination's size to Static(L) and
replaces the literal in place by the integer literal encoding the bits
as an unsigned big-endian integer. -/
theorem c5_literal_roundtrip (st : ResolveBitvectors) (dest : Ident) (bits : List Bool)
    (s₀ : Size) (h : lookupLocal st.locals dest = some (.Int s₀)) :
    st.resolve_from_copy (.Identifier dest) (.Literal (.Bits bits)) =
      some ({ st with locals := updateLocal st.locals dest (.Int (.Static bits.length)) },
        .Literal (.Int (bits_to_int bits)))
    ∧ ResolveBitvectors.get_size
        { st with locals := updateLocal st.locals dest (.Int (.Static bits.length)) } dest =
      some (.Static bits.length) := by
  refine ⟨?_, get_size_after_update_self st dest _ s₀ h⟩
  simp only [ResolveBitvectors.resolve_from_copy, set_size_eq st dest _ s₀ h]

/-- Witness for C5 at a concrete input: copying the 4-bit literal 1011
into d (previously of unknown size) yields the integer literal 11 and
size Static(4). -/
theorem c5_literal_roundtrip_witness :
    ResolveBitvectors.resolve_from_copy ⟨false, [("d", Typ.Int Size.Unknown)]⟩
        (.Identifier "d") (.Literal (.Bits [true, false, true, true])) =
      some (⟨false, [("d", Typ.Int (Size.Static 4))]⟩, .Literal (.Int 11))
    ∧ ResolveBitvectors.get_size ⟨false, [("d", Typ.Int (Size.Static 4))]⟩ "d" =
      some (Size.Static 4) :=
  c5_literal_roundtrip ⟨false, [("d", Typ.Int Size.Unknown)]⟩ "d"
    [true, false, true, true] Size.Unknown rfl

/-- C6: on a copy between two identifiers the size update follows
exactly the four-row merge table (Static destination never changed;
Unknown destination takes any source size; Runtime destination becomes
Static exactly when the source is Static; untracked source changes
nothing), an untracked destination changes nothing, and no value shape
other than an identifier or a bit-sequence literal triggers any size
propagation. -/
theorem c6_copy_merge_table (st : ResolveBitvectors) (dest source : Ident) :
    (∀ w, st.get_size dest = some (.Static w) →
      st.resolve_from_copy (.Identifier dest) (.Identifier source) =
        some (st, .Identifier source))
    ∧ (∀ s, st.get_size dest = some .Unknown → st.get_size source = some s →
      st.resolve_from_copy (.Identifier dest) (.Identifier source) =
        some ({ st with locals := updateLocal st.locals dest (.Int s) },
          .Identifier source))
    ∧ (∀ x w, st.get_size dest = some (.Runtime x) → st.get_size source = some (.Static w) →
      st.resolve_from_copy (.Identifier dest) (.Identifier source) =
        some ({ st with locals := updateLocal st.locals dest (.Int (.Static w)) },
          .Identifier source))
    ∧ (∀ x s, st.get_size dest = some (.Runtime x) → st.get_size source = some s →
      (∀ w, s ≠ .Static w) →
      st.resolve_from_copy (.Identifier dest) (.Identifier source) =
        some (st, .Identifier source))
    ∧ (st.get_size source = none →
      st.resolve_from_copy (.Identifier dest) (.Identifier source) =
        some (st, .Identifier source))
    ∧ (st.get_size dest = none →
      st.resolve_from_copy (.Identifier dest) (.Identifier source) =
        some (st, .Identifier source))
    ∧ (∀ i, st.resolve_from_copy (.Identifier dest) (.Literal (.Int i)) =
        some (st, .Literal (.Int i)))
    ∧ (∀ op l r, st.resolve_from_copy (.Identifier dest) (.Operation op l r) =
        some (st, .Operation op l r)) := by
  refine ⟨?_, ?_, ?_, ?_, ?_, ?_, ?_, ?_⟩
  · intro w hd
    cases hs : st.get_size source <;>
      simp [ResolveBitvectors.resolve_from_copy, hd, hs]
  · intro s hd hs
    have hl : lookupLocal st.locals dest = some (.Int .Unknown) :=
      (get_size_eq_some_iff st dest .Unknown).mp hd
    simp [ResolveBitvectors.resolve_from_copy, hd, hs, set_size_eq st dest s .Unknown hl]
  · intro x w hd hs
    have hl : lookupLocal st.locals dest = some (.Int (.Runtime x)) :=
      (get_size_eq_some_iff st dest (.Runtime x)).mp hd
    simp [ResolveBitvectors.resolve_from_copy, hd, hs,
      set_size_eq st dest (.Static w) (.Runtime x) hl]
  · intro x s hd hs hns
    cases s with
    | Unknown => simp [ResolveBitvectors.resolve_from_copy, hd, hs]
    | Static w => exact absurd rfl (hns w)
    | Runtime y => simp [ResolveBitvectors.resolve_from_copy, hd, hs]
  · intro hs
    cases hd : st.get_size dest with
    | none => simp [ResolveBitvectors.resolve_from_copy, hd, hs]
    | some s => cases s <;> simp [ResolveBitvectors.resolve_from_copy, hd, hs]
  · intro hd
    cases hs : st.get_size source with
    | none => simp [ResolveBitvectors.resolve_from_copy, hd, hs]
    | some s => simp [ResolveBitvectors.resolve_from_copy, hd, hs]
  · intro i
    simp [ResolveBitvectors.resolve_from_copy]
  · intro op l r
    simp [ResolveBitvectors.resolve_from_copy]

/-- Witness for C6 at concrete inputs: an Unknown destination takes a
Runtime source size, and a Runtime destination is upgraded by a Static
source. -/
theorem c6_copy_merge_table_witness :
    ResolveBitvectors.resolve_from_copy
        ⟨false, [("d", Typ.Int Size.Unknown), ("s", Typ.Int (Size.Runtime "n"))]⟩
        (.Identifier "d") (.Identifier "s") =
      some (⟨false, [("d", Typ.Int (Size.Runtime "n")), ("s", Typ.Int (Size.Runtime "n"))]⟩,
        .Identifier "s")
    ∧ ResolveBitvectors.resolve_from_copy
        ⟨false, [("d", Typ.Int (Size.Runtime "n")), ("s", Typ.Int (Size.Static 7))]⟩
        (.Identifier "d") (.Identifier "s") =
      some (⟨false, [("d", Typ.Int (Size.Static 7)), ("s", Typ.Int (Size.Static 7))]⟩,
        .Identifier "s") := by
  constructor
  · exact (c6_copy_merge_table
      ⟨false, [("d", Typ.Int Size.Unknown), ("s", Typ.Int (Size.Runtime "n"))]⟩
      "d" "s").2.1 (Size.Runtime "n") rfl rfl
  · exact (c6_copy_merge_table
      ⟨false, [("d", Typ.Int (Size.Runtime "n")), ("s", Typ.Int (Size.Static 7))]⟩
      "d" "s").2.2.1 "n" 7 rfl rfl

/-- C9: undefined_bitvector with an identifier destination: a tracked
destination of Unknown size is upgraded to Runtime of the size argument
identifier; in every tracked case (Unknown, Runtime or Static) the
statement is rewritten to a copy of integer literal 0; an untracked
destination is a fatal abort. -/
theorem c9_undefined_bitvector (st : ResolveBitvectors) (entry : List Statement)
    (stmt : Statement) (dest : Ident) :
    (∀ size_ident : Ident, st.get_size dest = some .Unknown →
      undefined_handler st entry stmt (.Identifier dest) [.Identifier size_ident] =
        some ({ st with locals := updateLocal st.locals dest (.Int (.Runtime size_ident)) },
          .Copy (.Identifier dest) (.Literal (.Int 0)))
      ∧ ResolveBitvectors.get_size
          { st with locals := updateLocal st.locals dest (.Int (.Runtime size_ident)) }
          dest = some (.Runtime size_ident))
    ∧ (∀ (arg : Value) (x : Ident), st.get_size dest = some (.Runtime x) →
      undefined_handler st entry stmt (.Identifier dest) [arg] =
        some (st, .Copy (.Identifier dest) (.Literal (.Int 0))))
    ∧ (∀ (arg : Value) (w : Nat), st.get_size dest = some (.Static w) →
      undefined_handler st entry stmt (.Identifier dest) [arg] =
        some (st, .Copy (.Identifier dest) (.Literal (.Int 0))))
    ∧ (∀ arg : Value, lookupLocal st.locals dest = none →
      undefined_handler st entry stmt (.Identifier dest) [arg] = none) := by
  refine ⟨?_, ?_, ?_, ?_⟩
  · intro size_ident hd
    have hl : lookupLocal st.locals dest = some (.Int .Unknown) :=
      (get_size_eq_some_iff st dest .Unknown).mp hd
    refine ⟨?_, get_size_after_update_self st dest _ .Unknown hl⟩
    simp [undefined_handler, hd, set_size_eq st dest (.Runtime size_ident) .Unknown hl]
  · intro arg x hd
    simp [undefined_handler, hd]
  · intro arg w hd
    simp [undefined_handler, hd]
  · intro arg hl
    have hd : st.get_size dest = none := by
      unfold ResolveBitvectors.get_size
      rw [hl]
    simp [undefined_handler, hd]

/-- Witness for C9 at concrete inputs: an Unknown destination is
upgraded to Runtime("n") and rewritten to a copy of 0, and an untracked
destination aborts. -/
theorem c9_undefined_bitvector_witness :
    (undefined_handler ⟨false, [("z", Typ.Int Size.Unknown)]⟩ [] Statement.Other
        (.Identifier "z") [.Identifier "n"] =
      some (⟨false, [("z", Typ.Int (Size.Runtime "n"))]⟩,
        .Copy (.Identifier "z") (.Literal (.Int 0)))
      ∧ ResolveBitvectors.get_size ⟨false, [("z", Typ.Int (Size.Runtime "n"))]⟩ "z" =
        some (Size.Runtime "n"))
    ∧ undefined_handler ⟨false, []⟩ [] Statement.Other
        (.Identifier "z") [.Identifier "n"] = none := by
  constructor
  · exact (c9_undefined_bitvector ⟨false, [("z", Typ.Int Size.Unknown)]⟩ [] Statement.Other
      "z").1 "n" rfl
  · exact (c9_undefined_bitvector ⟨false, []⟩ [] Statement.Other "z").2.2.2
      (.Identifier "n") rfl

/-- Counterexample to C2: a Ones call whose length identifier has no
assignment in the entry block does NOT abort: the handler returns with
the statement unrewritten and the state untouched, contradicting the
claim that a failed lookup is fatal. -/
theorem c2_ones_missing_binding_no_abort :
    ones_handler ⟨false, [("d", Typ.Int Size.Unknown)]⟩ []
      (.FunctionCall (some (.Identifier "d")) "Ones" [.Identifier "n"])
      (.Identifier "d") [.Identifier "n"] =
    some (⟨false, [("d", Typ.Int Size.Unknown)]⟩,
      .FunctionCall (some (.Identifier "d")) "Ones" [.Identifier "n"]) := rfl

/-- C2 as amended: when the entry-block lookup finds no binding for the
length identifier, the Ones handler silently leaves the statement
unrewritten and the state unchanged (no abort); when it finds a binding
that is not an integer literal, the pass aborts fatally; when it yields
integer literal length (and the destination is tracked with an integer
type), the destination's size is set to Static(length) and the statement
is rewritten to a copy of the integer literal (1 shifted left by length)
minus 1. -/
theorem c2_ones_amended (st : ResolveBitvectors) (entry : List Statement)
    (stmt : Statement) (dest len_id : Ident) :
    (get_assignment entry len_id = none →
      ones_handler st entry stmt (.Identifier dest) [.Identifier len_id] = some (st, stmt))
    ∧ (∀ v : Value, get_assignment entry len_id = some v → (∀ i, v ≠ .Literal (.Int i)) →
      ones_handler st entry stmt (.Identifier dest) [.Identifier len_id] = none)
    ∧ (∀ (L : Int) (s₀ : Size), get_assignment entry len_id = some (.Literal (.Int L)) →
      0 ≤ L → L < 128 → lookupLocal st.locals dest = some (.Int s₀) →
      ones_handler st entry stmt (.Identifier dest) [.Identifier len_id] =
        some ({ st with locals := updateLocal st.locals dest (.Int (.Static L.toNat)) },
          .Copy (.Identifier dest) (.Literal (.Int (2 ^ L.toNat - 1))))
      ∧ ResolveBitvectors.get_size
          { st with locals := updateLocal st.locals dest (.Int (.Static L.toNat)) } dest =
        some (.Static L.toNat)) := by
  refine ⟨?_, ?_, ?_⟩
  · intro h
    simp [ones_handler, h]
  · intro v h hv
    cases v with
    | Identifier x => simp [ones_handler, h]
    | Literal lit =>
      cases lit with
      | Int i => exact absurd rfl (hv i)
      | Bits bits => simp [ones_handler, h]
    | Operation op l r => simp [ones_handler, h]
  · intro L s₀ h h0 h128 hl
    have hconv : usize_try_from L = some L.toNat := by
      unfold usize_try_from
      rw [if_pos ⟨h0, by omega⟩]
    have hlt : L.toNat < 128 := by omega
    refine ⟨?_, get_size_after_update_self st dest _ s₀ hl⟩
    simp [ones_handler, h, hconv, set_size_eq st dest (.Static L.toNat) s₀ hl, hlt]

/-- Witness for C2 as amended, at concrete inputs: with no binding the
statement survives untouched; with the length bound to 4 the destination
gets size Static(4) and the statement becomes a copy of 15. -/
theorem c2_ones_amended_witness :
    ones_handler ⟨false, [("d", Typ.Int Size.Unknown)]⟩ [] Statement.Other
        (.Identifier "d") [.Identifier "n"] =
      some (⟨false, [("d", Typ.Int Size.Unknown)]⟩, Statement.Other)
    ∧ (ones_handler ⟨false, [("d", Typ.Int Size.Unknown)]⟩
        [Statement.Copy (.Identifier "n") (.Literal (.Int 4))] Statement.Other
        (.Identifier "d") [.Identifier "n"] =
      some (⟨false, [("d", Typ.Int (Size.Static (4 : Int).toNat))]⟩,
        .Copy (.Identifier "d") (.Literal (.Int (2 ^ (4 : Int).toNat - 1))))
      ∧ ResolveBitvectors.get_size ⟨false, [("d", Typ.Int (Size.Static (4 : Int).toNat))]⟩
          "d" = some (Size.Static (4 : Int).toNat)) := by
  constructor
  · exact (c2_ones_amended ⟨false, [("d", Typ.Int Size.Unknown)]⟩ [] Statement.Other
      "d" "n").1 rfl
  · exact (c2_ones_amended ⟨false, [("d", Typ.Int Size.Unknown)]⟩
      [Statement.Copy (.Identifier "n") (.Literal (.Int 4))] Statement.Other
      "d" "n").2.2 4 Size.Unknown rfl (by norm_num) (by norm_num) rfl

/-- Counterexample to C3: a bitvector_concat call whose operands both
have Static sizes (3 and 5) but whose destination identifier is not
tracked by the environment aborts fatally (the set_size unwrap) instead
of emitting the rewrite the claim promises. -/
theorem c3_concat_untracked_dest_aborts :
    concat_handler ⟨false, [("l", Typ.Int (Size.Static 3)), ("r", Typ.Int (Size.Static 5))]⟩
      []
      (.FunctionCall (some (.Identifier "d")) "bitvector_concat"
        [.Identifier "l", .Identifier "r"])
      (.Identifier "d") [.Identifier "l", .Identifier "r"] = none := rfl

/-- C3 as amended: when both operands' tracked sizes are Static and the
destination identifier is tracked with an integer type, the statement is
rewritten to a copy of (left shifted left by right_width) or-ed with
right and the destination's size is set to Static(left_width +
right_width); when either operand's size is not Static the pass aborts
without emitting any rewrite; when both are Static but the destination
is untracked the pass likewise aborts. -/
theorem c3_concat_amended (st : ResolveBitvectors) (entry : List Statement)
    (stmt : Statement) (dest l r : Ident) :
    (∀ (lw rw : Nat) (s₀ : Size), st.get_size l = some (.Static lw) →
      st.get_size r = some (.Static rw) →
      lookupLocal st.locals dest = some (.Int s₀) →
      concat_handler st entry stmt (.Identifier dest) [.Identifier l, .Identifier r] =
        some ({ st with locals := updateLocal st.locals dest (.Int (.Static (lw + rw))) },
          .Copy (.Identifier dest)
            (.Operation .Or
              (.Operation .LeftShift (.Identifier l) (.Literal (.Int (rw : Int))))
              (.Identifier r)))
      ∧ ResolveBitvectors.get_size
          { st with locals := updateLocal st.locals dest (.Int (.Static (lw + rw))) }
          dest = some (.Static (lw + rw)))
    ∧ ((∀ w, st.get_size l ≠ some (.Static w)) →
      concat_handler st entry stmt (.Identifier dest) [.Identifier l, .Identifier r] = none)
    ∧ (∀ lw, st.get_size l = some (.Static lw) → (∀ w, st.get_size r ≠ some (.Static w)) →
      concat_handler st entry stmt (.Identifier dest) [.Identifier l, .Identifier r] = none)
    ∧ (∀ lw rw, st.get_size l = some (.Static lw) → st.get_size r = some (.Static rw) →
      lookupLocal st.locals dest = none →
      concat_handler st entry stmt (.Identifier dest) [.Identifier l, .Identifier r] =
        none) := by
  refine ⟨?_, ?_, ?_, ?_⟩
  · intro lw rw s₀ hl hr hd
    refine ⟨?_, get_size_after_update_self st dest _ s₀ hd⟩
    simp [concat_handler, hl, hr, set_size_eq st dest (.Static (lw + rw)) s₀ hd]
  · intro hns
    cases hl : st.get_size l with
    | none => simp [concat_handler, hl]
    | some s =>
      cases s with
      | Unknown => simp [concat_handler, hl]
      | Static w => exact absurd hl (hns w)
      | Runtime x => simp [concat_handler, hl]
  · intro lw hl hns
    cases hr : st.get_size r with
    | none => simp [concat_handler, hl, hr]
    | some s =>
      cases s with
      | Unknown => simp [concat_handler, hl, hr]
      | Static w => exact absurd hr (hns w)
      | Runtime x => simp [concat_handler, hl, hr]
  · intro lw rw hl hr hd
    have hset : st.set_size dest (.Static (lw + rw)) = none := by
      unfold ResolveBitvectors.set_size
      rw [hd]
    simp [concat_handler, hl, hr, hset]

/-- Witness for C3 as amended, at concrete inputs: operands of sizes 3
and 5 produce the shifted-or rewrite with destination size Static(8),
and a Runtime-sized left operand aborts. -/
theorem c3_concat_amended_witness :
    (concat_handler
        ⟨false, [("l", Typ.Int (Size.Static 3)), ("r", Typ.Int (Size.Static 5)),
          ("d", Typ.Int Size.Unknown)]⟩ [] Statement.Other
        (.Identifier "d") [.Identifier "l", .Identifier "r"] =
      some (⟨false, [("l", Typ.Int (Size.Static 3)), ("r", Typ.Int (Size.Static 5)),
          ("d", Typ.Int (Size.Static 8))]⟩,
        .Copy (.Identifier "d")
          (.Operation .Or
            (.Operation .LeftShift (.Identifier "l") (.Literal (.Int 5)))
            (.Identifier "r")))
      ∧ ResolveBitvectors.get_size
          ⟨false, [("l", Typ.Int (Size.Static 3)), ("r", Typ.Int (Size.Static 5)),
            ("d", Typ.Int (Size.Static 8))]⟩ "d" = some (Size.Static 8))
    ∧ concat_handler
        ⟨false, [("l", Typ.Int (Size.Runtime "n")), ("r", Typ.Int (Size.Static 5)),
          ("d", Typ.Int Size.Unknown)]⟩ [] Statement.Other
        (.Identifier "d") [.Identifier "l", .Identifier "r"] = none := by
  constructor
  · exact (c3_concat_amended
      ⟨false, [("l", Typ.Int (Size.Static 3)), ("r", Typ.Int (Size.Static 5)),
        ("d", Typ.Int Size.Unknown)]⟩ [] Statement.Other "d" "l" "r").1
      3 5 Size.Unknown rfl rfl rfl
  · exact (c3_concat_amended
      ⟨false, [("l", Typ.Int (Size.Runtime "n")), ("r", Typ.Int (Size.Static 5)),
        ("d", Typ.Int Size.Unknown)]⟩ [] Statement.Other "d" "l" "r").2.1
      (fun w h => by cases h)

/-- Counterexample to C4: a Zeros call whose length identifier IS bound
to an integer literal but whose destination identifier is untracked
aborts fatally (the set_size unwrap) instead of being rewritten to a
copy of 0, contradicting the claim that the rewrite always happens. -/
theorem c4_zeros_untracked_dest_aborts :
    zeros_handler ⟨false, []⟩ [Statement.Copy (.Identifier "n") (.Literal (.Int 5))]
      (.FunctionCall (some (.Identifier "d")) "Zeros" [.Identifier "n"])
      (.Identifier "d") [.Identifier "n"] = none := by
  simp [zeros_handler, zeros_resolve, get_assignment, usize_try_from,
    ResolveBitvectors.set_size, lookupLocal]

/-- C4 as amended: when the entry-block literal lookup for the length
identifier fails (no binding, or a binding that is not an integer
literal), the statement is rewritten to a copy of integer literal 0 with
the state untouched and no abort; when the lookup yields integer literal
length and the destination is tracked with an integer type, the
destination's size is set to Static(length) and the statement is
rewritten to a copy of integer literal 0; when the lookup yields an
integer literal but the destination is untracked, the pass aborts
fatally. -/
theorem c4_zeros_amended (st : ResolveBitvectors) (entry : List Statement)
    (stmt : Statement) (dest len_id : Ident) :
    (get_assignment entry len_id = none →
      zeros_handler st entry stmt (.Identifier dest) [.Identifier len_id] =
        some (st, .Copy (.Identifier dest) (.Literal (.Int 0))))
    ∧ (∀ v : Value, get_assignment entry len_id = some v → (∀ i, v ≠ .Literal (.Int i)) →
      zeros_handler st entry stmt (.Identifier dest) [.Identifier len_id] =
        some (st, .Copy (.Identifier dest) (.Literal (.Int 0))))
    ∧ (∀ (L : Int) (s₀ : Size), get_assignment entry len_id = some (.Literal (.Int L)) →
      0 ≤ L → L < 2 ^ 64 → lookupLocal st.locals dest = some (.Int s₀) →
      zeros_handler st entry stmt (.Identifier dest) [.Identifier len_id] =
        some ({ st with locals := updateLocal st.locals dest (.Int (.Static L.toNat)) },
          .Copy (.Identifier dest) (.Literal (.Int 0)))
      ∧ ResolveBitvectors.get_size
          { st with locals := updateLocal st.locals dest (.Int (.Static L.toNat)) } dest =
        some (.Static L.toNat))
    ∧ (∀ L : Int, get_assignment entry len_id = some (.Literal (.Int L)) →
      0 ≤ L → L < 2 ^ 64 → lookupLocal st.locals dest = none →
      zeros_handler st entry stmt (.Identifier dest) [.Identifier len_id] = none) := by
  refine ⟨?_, ?_, ?_, ?_⟩
  · intro h
    simp [zeros_handler, zeros_resolve, h]
  · intro v h hv
    cases v with
    | Identifier x => simp [zeros_handler, zeros_resolve, h]
    | Literal lit =>
      cases lit with
      | Int i => exact absurd rfl (hv i)
      | Bits bits => simp [zeros_handler, zeros_resolve, h]
    | Operation op a b => simp [zeros_handler, zeros_resolve, h]
  · intro L s₀ h h0 hbig hl
    have hconv : usize_try_from L = some L.toNat := by
      unfold usize_try_from
      rw [if_pos ⟨h0, hbig⟩]
    refine ⟨?_, get_size_after_update_self st dest _ s₀ hl⟩
    simp [zeros_handler, zeros_resolve, h, hconv,
      set_size_eq st dest (.Static L.toNat) s₀ hl]
  · intro L h h0 hbig hl
    have hconv : usize_try_from L = some L.toNat := by
      unfold usize_try_from
      rw [if_pos ⟨h0, hbig⟩]
    have hset : st.set_size dest (.Static L.toNat) = none := by
      unfold ResolveBitvectors.set_size
      rw [hl]
    simp [zeros_handler, zeros_resolve, h, hconv, hset]

/-- Witness for C4 as amended, at concrete inputs: with no binding for
the length, the statement still becomes a copy of 0 and the state is
untouched; with the length bound to 5 and a tracked destination, the
size becomes Static(5) and the statement becomes a copy of 0. -/
theorem c4_zeros_amended_witness :
    zeros_handler ⟨false, [("d", Typ.Int Size.Unknown)]⟩ [] Statement.Other
        (.Identifier "d") [.Identifier "n"] =
      some (⟨false, [("d", Typ.Int Size.Unknown)]⟩,
        .Copy (.Identifier "d") (.Literal (.Int 0)))
    ∧ (zeros_handler ⟨false, [("d", Typ.Int Size.Unknown)]⟩
        [Statement.Copy (.Identifier "n") (.Literal (.Int 5))] Statement.Other
        (.Identifier "d") [.Identifier "n"] =
      some (⟨false, [("d", Typ.Int (Size.Static (5 : Int).toNat))]⟩,
        .Copy (.Identifier "d") (.Literal (.Int 0)))
      ∧ ResolveBitvectors.get_size ⟨false, [("d", Typ.Int (Size.Static (5 : Int).toNat))]⟩
          "d" = some (Size.Static (5 : Int).toNat)) := by
  constructor
  · exact (c4_zeros_amended ⟨false, [("d", Typ.Int Size.Unknown)]⟩ [] Statement.Other
      "d" "n").1 rfl
  · exact (c4_zeros_amended ⟨false, [("d", Typ.Int Size.Unknown)]⟩
      [Statement.Copy (.Identifier "n") (.Literal (.Int 5))] Statement.Other
      "d" "n").2.2.1 5 Size.Unknown rfl (by norm_num) (by norm_num) rfl

/-- C1 at a concrete failing input: a one-function AST whose single
statement is an eq_vec call.  The pass rewrites the statement to a copy
of an equality operation (so a rewrite did occur, and the output AST
differs from the input), yet run reports false: no handler ever sets the
did_change flag, so run can never report that a rewrite occurred. -/
theorem c1_run_reports_no_change_despite_rewrite :
    run ⟨[⟨[], [.FunctionCall (some (.Identifier "d")) "eq_vec"
        [.Identifier "a", .Identifier "b"]], []⟩]⟩ =
      some (false, ⟨[⟨[], [.Copy (.Identifier "d")
        (.Operation .Equal (.Identifier "a") (.Identifier "b"))], []⟩]⟩)
    ∧ (Ast.mk [⟨[], [.Copy (.Identifier "d")
        (.Operation .Equal (.Identifier "a") (.Identifier "b"))], []⟩] ≠
      Ast.mk [⟨[], [.FunctionCall (some (.Identifier "d")) "eq_vec"
        [.Identifier "a", .Identifier "b"]], []⟩]) := by
  exact ⟨rfl, by decide⟩

/-- Every size has rank at most the rank of a Static size. -/
theorem rank_le_two (s : Size) : s.rank ≤ 2 := by
  cases s <;> simp [Size.rank]

/-- Sizes tracked by the environment only move up the rank order when a
set_size writes a size ranked at least as high as the destination's
current size: the written name gets the new size, every other name is
untouched. -/
theorem get_size_mono_set_size (st st' : ResolveBitvectors) (d : Ident) (sz : Size)
    (hset : st.set_size d sz = some st')
    (hup : ∀ s₀, st.get_size d = some s₀ → s₀.rank ≤ sz.rank)
    (name : Ident) (s : Size) (hs : st.get_size name = some s) :
    ∃ s', st'.get_size name = some s' ∧ s.rank ≤ s'.rank := by
  obtain ⟨s₀, hl, hst⟩ := set_size_some_inv st st' d sz hset
  subst hst
  by_cases hnd : name = d
  · subst hnd
    exact ⟨sz, get_size_after_update_self st name sz s₀ hl, hup s hs⟩
  · refine ⟨s, ?_, le_refl _⟩
    rw [get_size_after_update_ne st d (.Int sz) name hnd]
    exact hs

/-- Rank monotonicity holds trivially when the state is unchanged. -/
theorem get_size_mono_refl (st : ResolveBitvectors) (name : Ident) (s : Size)
    (hs : st.get_size name = some s) :
    ∃ s', st.get_size name = some s' ∧ s.rank ≤ s'.rank :=
  ⟨s, hs, le_refl _⟩

/-- The copy rule only moves tracked sizes up the rank order. -/
theorem resolve_from_copy_mono (st st' : ResolveBitvectors) (e : Expression) (v v' : Value)
    (h : st.resolve_from_copy e v = some (st', v'))
    (name : Ident) (s : Size) (hs : st.get_size name = some s) :
    ∃ s', st'.get_size name = some s' ∧ s.rank ≤ s'.rank := by
  cases e with
  | Other =>
    simp [ResolveBitvectors.resolve_from_copy] at h
    obtain ⟨rfl, rfl⟩ := h
    exact get_size_mono_refl st name s hs
  | Identifier dest =>
    cases v with
    | Operation op a b =>
      simp [ResolveBitvectors.resolve_from_copy] at h
      obtain ⟨rfl, rfl⟩ := h
      exact get_size_mono_refl st name s hs
    | Literal lit =>
      cases lit with
      | Int i =>
        simp [ResolveBitvectors.resolve_from_copy] at h
        obtain ⟨rfl, rfl⟩ := h
        exact get_size_mono_refl st name s hs
      | Bits bits =>
        simp only [ResolveBitvectors.resolve_from_copy] at h
        cases hset : st.set_size dest (.Static bits.length) with
        | none => rw [hset] at h; simp at h
        | some st₂ =>
          rw [hset] at h
          simp at h
          obtain ⟨rfl, rfl⟩ := h
          exact get_size_mono_set_size st st₂ dest (.Static bits.length) hset
            (fun s₀ _ => rank_le_two s₀) name s hs
    | Identifier source =>
      cases hd : st.get_size dest with
      | none =>
        simp [ResolveBitvectors.resolve_from_copy, hd] at h
        obtain ⟨rfl, rfl⟩ := h
        exact get_size_mono_refl st name s hs
      | some ds =>
        cases hs' : st.get_size source with
        | none =>
          cases ds <;>
            · simp [ResolveBitvectors.resolve_from_copy, hd, hs'] at h
              obtain ⟨rfl, rfl⟩ := h
              exact get_size_mono_refl st name s hs
        | some ss =>
          cases ds with
          | Static w =>
            simp [ResolveBitvectors.resolve_from_copy, hd, hs'] at h
            obtain ⟨rfl, rfl⟩ := h
            exact get_size_mono_refl st name s hs
          | Unknown =>
            simp only [ResolveBitvectors.resolve_from_copy, hd, hs'] at h
            cases hset : st.set_size dest ss with
            | none => rw [hset] at h; simp at h
            | some st₂ =>
              rw [hset] at h
              simp at h
              obtain ⟨rfl, rfl⟩ := h
              refine get_size_mono_set_size st st₂ dest ss hset ?_ name s hs
              intro s₀ h₀
              rw [hd] at h₀
              cases h₀
              simp [Size.rank]
          | Runtime x =>
            cases ss with
            | Static w =>
              simp only [ResolveBitvectors.resolve_from_copy, hd, hs'] at h
              cases hset : st.set_size dest (.Static w) with
              | none => rw [hset] at h; simp at h
              | some st₂ =>
                rw [hset] at h
                simp at h
                obtain ⟨rfl, rfl⟩ := h
                exact get_size_mono_set_size st st₂ dest (.Static w) hset
                  (fun s₀ _ => rank_le_two s₀) name s hs
            | Unknown =>
              simp [ResolveBitvectors.resolve_from_copy, hd, hs'] at h
              obtain ⟨rfl, rfl⟩ := h
              exact get_size_mono_refl st name s hs
            | Runtime y =>
              simp [ResolveBitvectors.resolve_from_copy, hd, hs'] at h
              obtain ⟨rfl, rfl⟩ := h
              exact get_size_mono_refl st name s hs

/-- The size-resolving part of Zeros only moves tracked sizes up the
rank order (it writes nothing or a Static size). -/
theorem zeros_resolve_mono (st : ResolveBitvectors) (entry : List Statement)
    (e : Expression) (ident : Ident) (st' : ResolveBitvectors)
    (h : zeros_resolve st entry e ident = some st')
    (name : Ident) (s : Size) (hs : st.get_size name = some s) :
    ∃ s', st'.get_size name = some s' ∧ s.rank ≤ s'.rank := by
  cases hga : get_assignment entry ident with
  | none =>
    simp [zeros_resolve, hga] at h
    subst h
    exact get_size_mono_refl st name s hs
  | some v =>
    cases v with
    | Identifier x =>
      simp [zeros_resolve, hga] at h
      subst h
      exact get_size_mono_refl st name s hs
    | Operation op a b =>
      simp [zeros_resolve, hga] at h
      subst h
      exact get_size_mono_refl st name s hs
    | Literal lit =>
      cases lit with
      | Bits bits =>
        simp [zeros_resolve, hga] at h
        subst h
        exact get_size_mono_refl st name s hs
      | Int L =>
        cases e with
        | Other =>
          simp [zeros_resolve, hga] at h
          subst h
          exact get_size_mono_refl st name s hs
        | Identifier destination =>
          simp only [zeros_resolve, hga] at h
          cases hconv : usize_try_from L with
          | none => rw [hconv] at h; simp at h
          | some l =>
            rw [hconv] at h
            simp only at h
            exact get_size_mono_set_size st st' destination (.Static l) h
              (fun s₀ _ => rank_le_two s₀) name s hs

/-- zeros_handler only moves tracked sizes up the rank order. -/
theorem zeros_handler_mono (st : ResolveBitvectors) (entry : List Statement)
    (stmt : Statement) (e : Expression) (args : List Value)
    (st' : ResolveBitvectors) (stmt₂ : Statement)
    (h : zeros_handler st entry stmt e args = some (st', stmt₂))
    (name : Ident) (s : Size) (hs : st.get_size name = some s) :
    ∃ s', st'.get_size name = some s' ∧ s.rank ≤ s'.rank := by
  rcases args with _ | ⟨a, _ | ⟨b, rest⟩⟩
  · simp [zeros_handler] at h
  · cases a with
    | Literal l => simp [zeros_handler] at h
    | Operation op x y => simp [zeros_handler] at h
    | Identifier ident =>
      simp only [zeros_handler] at h
      cases hzr : zeros_resolve st entry e ident with
      | none => rw [hzr] at h; simp at h
      | some st₂ =>
        rw [hzr] at h
        simp at h
        obtain ⟨rfl, rfl⟩ := h
        exact zeros_resolve_mono st entry e ident st₂ hzr name s hs
  · simp [zeros_handler] at h

/-- ones_handler only moves tracked sizes up the rank order (it writes
nothing or a Static size). -/
theorem ones_handler_mono (st : ResolveBitvectors) (entry : List Statement)
    (stmt : Statement) (e : Expression) (args : List Value)
    (st' : ResolveBitvectors) (stmt₂ : Statement)
    (h : ones_handler st entry stmt e args = some (st', stmt₂))
    (name : Ident) (s : Size) (hs : st.get_size name = some s) :
    ∃ s', st'.get_size name = some s' ∧ s.rank ≤ s'.rank := by
  rcases args with _ | ⟨a, _ | ⟨b, rest⟩⟩
  · simp [ones_handler] at h
  · cases a with
    | Literal l => simp [ones_handler] at h
    | Operation op x y => simp [ones_handler] at h
    | Identifier ident =>
      cases hga : get_assignment entry ident with
      | none =>
        simp [ones_handler, hga] at h
        obtain ⟨rfl, rfl⟩ := h
        exact get_size_mono_refl st name s hs
      | some v =>
        cases v with
        | Identifier x => simp [ones_handler, hga] at h
        | Operation op x y => simp [ones_handler, hga] at h
        | Literal lit =>
          cases lit with
          | Bits bits => simp [ones_handler, hga] at h
          | Int L =>
            cases e with
            | Other => simp [ones_handler, hga] at h
            | Identifier destination =>
              simp only [ones_handler, hga] at h
              cases hconv : usize_try_from L with
              | none => rw [hconv] at h; simp at h
              | some l =>
                rw [hconv] at h
                simp only at h
                cases hset : st.set_size destination (.Static l) with
                | none => rw [hset] at h; simp at h
                | some st₂ =>
                  rw [hset] at h
                  by_cases hl : l < 128
                  · simp [hl] at h
                    obtain ⟨rfl, rfl⟩ := h
                    exact get_size_mono_set_size st st₂ destination (.Static l) hset
                      (fun s₀ _ => rank_le_two s₀) name s hs
                  · simp [hl] at h
  · simp [ones_handler] at h

/-- concat_handler only moves tracked sizes up the rank order (it
writes a Static size or aborts). -/
theorem concat_handler_mono (st : ResolveBitvectors) (entry : List Statement)
    (stmt : Statement) (e : Expression) (args : List Value)
    (st' : ResolveBitvectors) (stmt₂ : Statement)
    (h : concat_handler st entry stmt e args = some (st', stmt₂))
    (name : Ident) (s : Size) (hs : st.get_size name = some s) :
    ∃ s', st'.get_size name = some s' ∧ s.rank ≤ s'.rank := by
  rcases args with _ | ⟨a, _ | ⟨b, _ | ⟨c, rest⟩⟩⟩
  · simp [concat_handler] at h
  · cases a <;> simp [concat_handler] at h
  · cases a with
    | Literal l => simp [concat_handler] at h
    | Operation op x y => simp [concat_handler] at h
    | Identifier lid =>
      cases b with
      | Literal l => simp [concat_handler] at h
      | Operation op x y => simp [concat_handler] at h
      | Identifier rid =>
        cases hgl : st.get_size lid with
        | none => simp [concat_handler, hgl] at h
        | some ls =>
          cases ls with
          | Unknown => simp [concat_handler, hgl] at h
          | Runtime x => simp [concat_handler, hgl] at h
          | Static lw =>
            cases hgr : st.get_size rid with
            | none => simp [concat_handler, hgl, hgr] at h
            | some rs =>
              cases rs with
              | Unknown => simp [concat_handler, hgl, hgr] at h
              | Runtime x => simp [concat_handler, hgl, hgr] at h
              | Static rw =>
                cases e with
                | Other => simp [concat_handler, hgl, hgr] at h
                | Identifier dest =>
                  simp only [concat_handler, hgl, hgr] at h
                  cases hset : st.set_size dest (.Static (lw + rw)) with
                  | none => rw [hset] at h; simp at h
                  | some st₂ =>
                    rw [hset] at h
                    simp at h
                    obtain ⟨rfl, rfl⟩ := h
                    exact get_size_mono_set_size st st₂ dest (.Static (lw + rw)) hset
                      (fun s₀ _ => rank_le_two s₀) name s hs
  · simp [concat_handler] at h

/-- eq_handler never changes the pass state. -/
theorem eq_handler_mono (st : ResolveBitvectors) (entry : List Statement)
    (stmt : Statement) (e : Expression) (args : List Value)
    (st' : ResolveBitvectors) (stmt₂ : Statement)
    (h : eq_handler st entry stmt e args = some (st', stmt₂))
    (name : Ident) (s : Size) (hs : st.get_size name = some s) :
    ∃ s', st'.get_size name = some s' ∧ s.rank ≤ s'.rank := by
  rcases args with _ | ⟨a, _ | ⟨b, _ | ⟨c, rest⟩⟩⟩
  · simp [eq_handler] at h
  · cases a <;> simp [eq_handler] at h
  · cases a with
    | Literal l => simp [eq_handler] at h
    | Operation op x y => simp [eq_handler] at h
    | Identifier lid =>
      cases b with
      | Literal l => simp [eq_handler] at h
      | Operation op x y => simp [eq_handler] at h
      | Identifier rid =>
        cases e with
        | Other => simp [eq_handler] at h
        | Identifier dest =>
          simp [eq_handler] at h
          obtain ⟨rfl, rfl⟩ := h
          exact get_size_mono_refl st name s hs
  · simp [eq_handler] at h

/-- undefined_handler only moves tracked sizes up the rank order (it
only ever upgrades an Unknown destination to Runtime). -/
theorem undefined_handler_mono (st : ResolveBitvectors) (entry : List Statement)
    (stmt : Statement) (e : Expression) (args : List Value)
    (st' : ResolveBitvectors) (stmt₂ : Statement)
    (h : undefined_handler st entry stmt e args = some (st', stmt₂))
    (name : Ident) (s : Size) (hs : st.get_size name = some s) :
    ∃ s', st'.get_size name = some s' ∧ s.rank ≤ s'.rank := by
  rcases args with _ | ⟨a, _ | ⟨b, rest⟩⟩
  · simp [undefined_handler] at h
  · cases e with
    | Other => simp [undefined_handler] at h
    | Identifier dest =>
      cases hd : st.get_size dest with
      | none => simp [undefined_handler, hd] at h
      | some ds =>
        cases ds with
        | Static w =>
          simp [undefined_handler, hd] at h
          obtain ⟨rfl, rfl⟩ := h
          exact get_size_mono_refl st name s hs
        | Runtime x =>
          simp [undefined_handler, hd] at h
          obtain ⟨rfl, rfl⟩ := h
          exact get_size_mono_refl st name s hs
        | Unknown =>
          cases a with
          | Literal l => simp [undefined_handler, hd] at h
          | Operation op x y => simp [undefined_handler, hd] at h
          | Identifier size_ident =>
            simp only [undefined_handler, hd] at h
            cases hset : st.set_size dest (.Runtime size_ident) with
            | none => rw [hset] at h; simp at h
            | some st₂ =>
              rw [hset] at h
              simp at h
              obtain ⟨rfl, rfl⟩ := h
              refine get_size_mono_set_size st st₂ dest (.Runtime size_ident) hset
                ?_ name s hs
              intro s₀ h₀
              rw [hd] at h₀
              cases h₀
              simp [Size.rank]
  · simp [undefined_handler] at h

/-- resolve_fn only moves tracked sizes up the rank order, whichever
handler the callee name dispatches to. -/
theorem resolve_fn_mono (st : ResolveBitvectors) (entry : List Statement)
    (stmt : Statement) (e : Expression) (nm : Ident) (args : List Value)
    (st' : ResolveBitvectors) (stmt₂ : Statement)
    (h : st.resolve_fn entry stmt e nm args = some (st', stmt₂))
    (name : Ident) (s : Size) (hs : st.get_size name = some s) :
    ∃ s', st'.get_size name = some s' ∧ s.rank ≤ s'.rank := by
  unfold ResolveBitvectors.resolve_fn at h
  split at h
  · exact zeros_handler_mono st entry stmt e args st' stmt₂ h name s hs
  · split at h
    · exact ones_handler_mono st entry stmt e args st' stmt₂ h name s hs
    · split at h
      · exact concat_handler_mono st entry stmt e args st' stmt₂ h name s hs
      · split at h
        · exact eq_handler_mono st entry stmt e args st' stmt₂ h name s hs
        · split at h
          · exact undefined_handler_mono st entry stmt e args st' stmt₂ h name s hs
          · simp at h
            obtain ⟨rfl, rfl⟩ := h
            exact get_size_mono_refl st name s hs

/-- C7: every size update performed by visiting a statement (any copy or
function-call rule of the pass; type declarations re-bind a name to a
fresh node rather than updating a size) moves a tracked identifier's
size only up the lattice: Unknown may become Runtime or Static, Runtime
may become Static, and a Static size never drops back to Unknown or
Runtime. -/
theorem c7_size_monotonic (st : ResolveBitvectors) (entry : List Statement)
    (stmt : Statement) (st' : ResolveBitvectors) (stmt₂ : Statement)
    (hnd : ∀ n t, stmt ≠ Statement.TypeDeclaration n t)
    (h : visit_statement st entry stmt = some (st', stmt₂))
    (name : Ident) (s : Size) (hs : st.get_size name = some s) :
    ∃ s', st'.get_size name = some s' ∧ s.rank ≤ s'.rank := by
  cases stmt with
  | TypeDeclaration n t => exact absurd rfl (hnd n t)
  | Other =>
    simp [visit_statement] at h
    obtain ⟨rfl, rfl⟩ := h
    exact get_size_mono_refl st name s hs
  | Copy e v =>
    simp only [visit_statement] at h
    cases hrc : st.resolve_from_copy e v with
    | none => rw [hrc] at h; simp at h
    | some p =>
      obtain ⟨st₂, v₂⟩ := p
      rw [hrc] at h
      simp at h
      obtain ⟨rfl, rfl⟩ := h
      exact resolve_from_copy_mono st st₂ e v v₂ hrc name s hs
  | FunctionCall oe nm args =>
    cases oe with
    | none =>
      simp [visit_statement] at h
      obtain ⟨rfl, rfl⟩ := h
      exact get_size_mono_refl st name s hs
    | some e =>
      simp only [visit_statement] at h
      exact resolve_fn_mono st entry _ e nm args st' stmt₂ h name s hs

/-- Witness for C7 at a concrete input: visiting an undefined_bitvector
call upgrades the destination from Unknown, and the new size's rank is
at least the old one's. -/
theorem c7_size_monotonic_witness :
    ∃ s', ResolveBitvectors.get_size ⟨false, [("d", Typ.Int (Size.Runtime "n"))]⟩ "d" =
        some s' ∧ Size.rank Size.Unknown ≤ s'.rank :=
  c7_size_monotonic ⟨false, [("d", Typ.Int Size.Unknown)]⟩ []
    (.FunctionCall (some (.Identifier "d")) "undefined_bitvector" [.Identifier "n"])
    ⟨false, [("d", Typ.Int (Size.Runtime "n"))]⟩
    (.Copy (.Identifier "d") (.Literal (.Int 0)))
    (fun n t hcontra => Statement.noConfusion hcontra) rfl "d" Size.Unknown rfl
